import Mathlib

/-!
Verification of the VLESS server-list classification pipeline (`app.py`).

Shallow embedding: the pure decision logic of the program is translated to
Lean functions over `List Char` / `String`; the stateful parts (the per-run
IP cache, the filesystem state of the GeoLite2 database, the geoip reader)
are modelled by explicit state passing.  Python's `str.lower()` is modelled
per character with `Char.toLower` (every token the program compares is
ASCII); the regex class `\d` is modelled by the exact set of Unicode
decimal digits it matches, and the end anchor `$` by its Python semantics
(end of string, or just before one final newline).
-/

namespace AppModel

/-- The five origin verdicts produced by `check_ip_with_geoasn`
(`"clean"`, `"bad"`, `"unknown"`, `"no_db"`, `"error"` in the source). -/
inductive Verdict where
  | clean
  | bad
  | unknown
  | no_db
  | error
deriving DecidableEq, Repr

/-- Python `s.lower()`, modelled per character. -/
def lowerChars (cs : List Char) : List Char := cs.map Char.toLower

/-- Python's substring test `pat in s`, on character lists. -/
def listContains (pat : List Char) : List Char → Bool
  | [] => pat.isEmpty
  | c :: rest => pat.isPrefixOf (c :: rest) || listContains pat rest

/-- `quick_filter` (app.py:72-81): stage-1 filter; the link is lowercased
once, then it must start with `vless://`, contain `security=reality`, and
not contain `type=ws`. -/
def quick_filter (link : String) : Bool :=
  let l := lowerChars link.toList
  if !("vless://".toList.isPrefixOf l) then false
  else if !(listContains "security=reality".toList l) then false
  else if listContains "type=ws".toList l then false
  else true

/-- The regex character class `[:/?#]` delimiting the host token in
`extract_ip`. -/
def isDelim (c : Char) : Bool := c == ':' || c == '/' || c == '?' || c == '#'

/-- The codepoint ranges matched by Python's `\d` on `str` patterns: the
Unicode decimal digits (category Nd), 660 characters in 62 runs of ten
(the `re` module matches exactly these; e.g. the superscript two U+00B2 is
not among them). -/
def PY_DIGIT_RANGES : List (Nat × Nat) :=
  [(48, 57), (1632, 1641), (1776, 1785), (1984, 1993), (2406, 2415),
   (2534, 2543), (2662, 2671), (2790, 2799), (2918, 2927), (3046, 3055),
   (3174, 3183), (3302, 3311), (3430, 3439), (3558, 3567), (3664, 3673),
   (3792, 3801), (3872, 3881), (4160, 4169), (4240, 4249), (6112, 6121),
   (6160, 6169), (6470, 6479), (6608, 6617), (6784, 6793), (6800, 6809),
   (6992, 7001), (7088, 7097), (7232, 7241), (7248, 7257), (42528, 42537),
   (43216, 43225), (43264, 43273), (43472, 43481), (43504, 43513),
   (43600, 43609), (44016, 44025), (65296, 65305), (66720, 66729),
   (68912, 68921), (69734, 69743), (69872, 69881), (69942, 69951),
   (70096, 70105), (70384, 70393), (70736, 70745), (70864, 70873),
   (71248, 71257), (71360, 71369), (71472, 71481), (71904, 71913),
   (72016, 72025), (72784, 72793), (73040, 73049), (73120, 73129),
   (92768, 92777), (92864, 92873), (93008, 93017), (120782, 120831),
   (123200, 123209), (123632, 123641), (125264, 125273), (130032, 130041)]

/-- Python's `\d` on one character. -/
def isPyDigit (c : Char) : Bool :=
  PY_DIGIT_RANGES.any (fun r => r.1 ≤ c.toNat && c.toNat ≤ r.2)

/-- One regex group `\d{1,3}`: one to three Unicode decimal digits. -/
def isDigitGroup (p : List Char) : Bool :=
  decide (1 ≤ p.length) && decide (p.length ≤ 3) && p.all isPyDigit

/-- Python's `$` matches at the end of the string or just before a newline
that is the last character, so `^pat$` accepts one optional final `'\n'`
after `pat`; this removes that final newline when present. -/
def stripFinalNewline : List Char → List Char
  | [] => []
  | ['\n'] => []
  | c :: rest => c :: stripFinalNewline rest

/-- Split a character list on `'.'` (used to decompose the host token the
way the anchored regex `^\d{1,3}(\.\d{1,3}){3}$` does). -/
def splitOnDot : List Char → List (List Char)
  | [] => [[]]
  | c :: rest =>
    if c == '.' then [] :: splitOnDot rest
    else
      match splitOnDot rest with
      | [] => [[c]]
      | p :: ps => (c :: p) :: ps

/-- The host check of `extract_ip`: the anchored regex
`^\d{1,3}(\.\d{1,3}){3}$` — four dot-separated groups of one to three
Unicode decimal digits, optionally followed by one final newline (matched
by `$`), with no numeric range restriction. -/
def isQuad13 (host : List Char) : Bool :=
  match splitOnDot (stripFinalNewline host) with
  | [a, b, c, d] => isDigitGroup a && isDigitGroup b && isDigitGroup c && isDigitGroup d
  | _ => false

/-- `extract_ip` (app.py:63-70): `re.match(r'vless://[^@]+@([^:/?#]+)', link)`
followed by the dotted-quad check on the captured host.  `re.match` anchors
at the start and is case sensitive; the greedy `[^@]+` stops at the first
`'@'` (and needs at least one character before it); the capture group takes
the maximal nonempty run of characters outside `[:/?#]`. -/
def extract_ip (link : String) : Option String :=
  let cs := link.toList
  if "vless://".toList.isPrefixOf cs then
    let rest := cs.drop 8
    let userinfo := rest.takeWhile (fun c => !(c == '@'))
    match rest.dropWhile (fun c => !(c == '@')) with
    | [] => none
    | _ :: afterAt =>
      if userinfo.isEmpty then none
      else
        let host := afterAt.takeWhile (fun c => !(isDelim c))
        if host.isEmpty then none
        else if isQuad13 host then some (String.mk host) else none
  else none

/-- The four output buckets of `main` (app.py:193-238). -/
structure PartitionSet where
  stage1_pass : List String
  final_clean : List String
  isp_problem : List String
  rejected : List String
deriving DecidableEq, Repr

/-- The stage-1 loop of `main` (app.py:199-203): each link goes to
`stage1_pass` or `rejected_stage1` according to `quick_filter`, in input
order. -/
def stage1 : List String → List String × List String
  | [] => ([], [])
  | link :: rest =>
    let (p, r) := stage1 rest
    if quick_filter link then (link :: p, r) else (p, link :: r)

/-- Result of the stage-2 loop: the two buckets it fills, the final state of
the (abstracted) classifier, and the number of `time.sleep` calls made. -/
structure Stage2Result (σ : Type) where
  final_clean : List String
  isp_problem : List String
  state : σ
  delays : Nat
deriving Repr

/-- The sleep at app.py:230-231 runs only when `CHECK_IP_MODE == "api"`. -/
def sleepCount (mode : String) : Nat := if mode == "api" then 1 else 0

/-- The stage-2 loop of `main` (app.py:214-231).  `classify` abstracts the
stateful `check_ip_with_geoasn`; a link without an extractable IP goes to
`isp_problem` via `continue` (skipping the sleep); otherwise the verdict
routes it and the sleep check runs. -/
def stage2 {σ : Type} (mode : String) (classify : String → σ → Verdict × σ) :
    List String → σ → Stage2Result σ
  | [], s => ⟨[], [], s, 0⟩
  | link :: rest, s =>
    match extract_ip link with
    | none =>
      let res := stage2 mode classify rest s
      ⟨res.final_clean, link :: res.isp_problem, res.state, res.delays⟩
    | some ip =>
      let (v, s1) := classify ip s
      let res := stage2 mode classify rest s1
      if v = Verdict.clean then
        ⟨link :: res.final_clean, res.isp_problem, res.state, sleepCount mode + res.delays⟩
      else
        ⟨res.final_clean, link :: res.isp_problem, res.state, sleepCount mode + res.delays⟩

/-- Result of one pipeline run. -/
structure RunResult (σ : Type) where
  parts : PartitionSet
  state : σ
  delays : Nat

/-- The partitioning logic of `main` (app.py:193-238).  `mode` is
`CHECK_IP_MODE`; the source tests `CHECK_IP_MODE != "geo"` and skips stage 2
in that case, copying `stage1_pass` into `final_clean` (app.py:207-209);
otherwise it first calls `download_geoip_database()` (modelled by the state
transformer `download`) and then runs the stage-2 loop. -/
def main_pipeline {σ : Type} (mode : String) (classify : String → σ → Verdict × σ)
    (download : σ → σ) (links : List String) (s : σ) : RunResult σ :=
  let (pass, rej) := stage1 links
  if mode == "geo" then
    let res := stage2 mode classify pass (download s)
    ⟨⟨pass, res.final_clean, res.isp_problem, rej⟩, res.state, res.delays⟩
  else
    ⟨⟨pass, pass, [], rej⟩, s, 0⟩

/-- `BAD_ASN_KEYWORDS` (app.py:40-45). -/
def BAD_ASN_KEYWORDS : List String :=
  ["cloudflare", "fastly", "akamai", "cdn",
   "hetzner", "ovh", "digitalocean", "vultr", "linode",
   "contabo", "ionos", "scaleway", "oracle", "amazon aws",
   "google cloud", "microsoft azure"]

/-- Outcome of one `reader.asn(ip)` call: a response (organization and
number, either possibly missing), `AddressNotFoundError`, or any other
exception. -/
inductive ReadOutcome where
  | found (org : Option String) (asn : Option Nat)
  | notFound
  | fault

/-- External state seen by one `check_ip_with_geoasn` call: whether the
database file exists, what `download_geoip_database()` would return,
`AUTO_DOWNLOAD_GEOIP`, and what the reader returns per address. -/
structure GeoEnv where
  dbPresent : Bool
  downloadOk : Bool
  autoDownload : Bool
  read : String → ReadOutcome

/-- The per-run `ip_cache` dict (app.py:47), as an association list in which
the most recent binding shadows. -/
abbrev Cache := List (String × Verdict)

/-- Python `str(response.autonomous_system_number or "")`: `None` and `0`
are falsy, so both yield the empty string. -/
def asnString : Option Nat → String
  | none => ""
  | some n => if n == 0 then "" else toString n

/-- The `try` body of `check_ip_with_geoasn` (app.py:143-164): resolve the
address, lowercase the organization, and flag it if any deny-list keyword
occurs in the organization or in the ASN string; the third component counts
database reads (always 1 here). -/
def readDb (env : GeoEnv) (ip : String) (cache : Cache) : Verdict × Cache × Nat :=
  match env.read ip with
  | .found orgOpt asnOpt =>
    let org := lowerChars (orgOpt.getD "").toList
    let asnStr := (asnString asnOpt).toList
    let isBad := BAD_ASN_KEYWORDS.any (fun kw => listContains kw.toList org) ||
                 BAD_ASN_KEYWORDS.any (fun kw => listContains kw.toList asnStr)
    if isBad then (.bad, (ip, .bad) :: cache, 1)
    else (.clean, (ip, .clean) :: cache, 1)
  | .notFound => (.unknown, (ip, .unknown) :: cache, 1)
  | .fault => (.error, (ip, .error) :: cache, 1)

/-- `check_ip_with_geoasn` (app.py:129-164): cache hit short-circuits;
otherwise ensure the database (auto-download on absence, `error` on failed
download, `no_db` when auto-download is off), then read.  Every miss path
writes the verdict into the cache before returning. -/
def check_ip_with_geoasn (env : GeoEnv) (ip : String) (cache : Cache) :
    Verdict × Cache × Nat :=
  match cache.lookup ip with
  | some v => (v, cache, 0)
  | none =>
    if env.dbPresent then readDb env ip cache
    else if env.autoDownload then
      if env.downloadOk then readDb env ip cache
      else (.error, (ip, .error) :: cache, 0)
    else (.no_db, (ip, .no_db) :: cache, 0)

/-- `MIN_DB_SIZE` (app.py:37). -/
def MIN_DB_SIZE : Nat := 1500000

/-- `MAX_AGE_DAYS` (app.py:38). -/
def MAX_AGE_DAYS : Nat := 30

/-- Filesystem metadata of the GeoLite2 database file: existence, byte
size, and age (now minus mtime) in seconds. -/
structure DbFile where
  present : Bool
  size : Nat
  ageSeconds : Nat
deriving DecidableEq, Repr

/-- `should_download_geoip` (app.py:83-101): re-download when the file is
absent or smaller than `MIN_DB_SIZE`; an old-but-valid file only triggers an
advisory and returns `false`. -/
def should_download_geoip (db : DbFile) : Bool :=
  if !db.present then true
  else if db.size < MIN_DB_SIZE then true
  else if MAX_AGE_DAYS * 86400 < db.ageSeconds then false
  else false

/-- Outcome of the HTTP transfer in `download_geoip_database`: either some
exception (connection error, bad status from `raise_for_status`, I/O fault)
or a completed write of `size` bytes. -/
inductive Transport where
  | fault
  | wrote (size : Nat)

/-- The state after `GEOIP_DATABASE_PATH.unlink(missing_ok=True)`. -/
def deletedDb : DbFile := ⟨false, 0, 0⟩

/-- `download_geoip_database` (app.py:103-127): no-op success when
`should_download_geoip` is false; otherwise the written file is validated
against `MIN_DB_SIZE` and deleted on an undersized result, and any exception
is caught, the artifact deleted, and failure returned. -/
def download_geoip_database (db : DbFile) (t : Transport) : Bool × DbFile :=
  if !(should_download_geoip db) then (true, db)
  else
    match t with
    | .fault => (false, deletedDb)
    | .wrote n =>
      if MIN_DB_SIZE ≤ n then (true, ⟨true, n, 0⟩)
      else (false, deletedDb)

/-! ## Specification-side definitions

These follow the wording of the specification (case-insensitive token
matching, the authority decomposition, the `[0,255]` octet range, the
annotated stage-2 trace) and are compared against the code-derived
definitions above. -/

/-- Case-insensitive equality of character lists. -/
def CIEq (a b : List Char) : Prop := lowerChars a = lowerChars b

/-- Spec-side: `link` contains the token `pat` case-insensitively. -/
def CIContains (pat link : String) : Prop :=
  ∃ a t b, link.toList = a ++ t ++ b ∧ CIEq t pat.toList

/-- Spec-side: `link` starts with the token `pat` case-insensitively (used
with `pat = "vless://"`, i.e. the scheme token plus its separator). -/
def CIStartsWith (pat link : String) : Prop :=
  ∃ t r, link.toList = t ++ r ∧ CIEq t pat.toList

/-- The stage-2 loop annotated with each link's outcome: `none` when no IP
could be extracted (no classification attempted), `some v` when the
classifier returned verdict `v` at that point of the run. -/
def stage2Trace {σ : Type} (classify : String → σ → Verdict × σ) :
    List String → σ → List (String × Option Verdict)
  | [], _ => []
  | link :: rest, s =>
    match extract_ip link with
    | none => (link, none) :: stage2Trace classify rest s
    | some ip =>
      let (v, s1) := classify ip s
      (link, some v) :: stage2Trace classify rest s1

/-- Numeric value of a digit group. -/
def octetVal (p : List Char) : Nat := p.foldl (fun n c => 10 * n + (c.toNat - 48)) 0

/-- Spec-side octet as the claim words it: one to three ASCII digits whose
numeric value is in `[0,255]`. -/
def isOctet255 (p : List Char) : Bool :=
  decide (1 ≤ p.length) && decide (p.length ≤ 3) && p.all Char.isDigit &&
    decide (octetVal p ≤ 255)

/-- Spec-side dotted quad as claimed: four octets each in `[0,255]`. -/
def isQuad255 (host : List Char) : Bool :=
  match splitOnDot host with
  | [a, b, c, d] => isOctet255 a && isOctet255 b && isOctet255 c && isOctet255 d
  | _ => false

/-- Spec-side authority decomposition of a link around its host token:
`link = "vless://" ++ u ++ "@" ++ h ++ r` where the credential part `u` is
nonempty and free of `'@'` (the separator matched is the first one), the
host `h` is nonempty and free of the delimiters `[:/?#]`, and `h` is
maximal (the remainder `r` is empty or starts with a delimiter). -/
def HostSpec (link h : String) : Prop :=
  ∃ u r : List Char,
    link.toList = "vless://".toList ++ u ++ '@' :: (h.toList ++ r) ∧
    u ≠ [] ∧ (∀ c ∈ u, c ≠ '@') ∧ h.toList ≠ [] ∧
    (∀ c ∈ h.toList, isDelim c = false) ∧
    (∀ c ∈ r.head?, isDelim c = true)

/-! ## Basic lemmas about the string primitives -/

theorem isPrefixOf_eq_true_iff : ∀ (p l : List Char), p.isPrefixOf l = true ↔ ∃ r, l = p ++ r
  | [], l => by simp [List.isPrefixOf]
  | _ :: _, [] => by simp [List.isPrefixOf]
  | a :: as, b :: bs => by
    simp only [List.isPrefixOf, Bool.and_eq_true, beq_iff_eq,
      isPrefixOf_eq_true_iff as bs, List.cons_append, List.cons.injEq]
    constructor
    · rintro ⟨rfl, r, rfl⟩
      exact ⟨r, rfl, rfl⟩
    · rintro ⟨r, rfl, rfl⟩
      exact ⟨rfl, r, rfl⟩

theorem listContains_eq_true_iff (pat : List Char) :
    ∀ l, listContains pat l = true ↔ ∃ a b, l = a ++ pat ++ b
  | [] => by
    simp only [listContains, List.isEmpty_iff]
    constructor
    · rintro rfl
      exact ⟨[], [], rfl⟩
    · rintro ⟨a, b, hab⟩
      rcases List.append_eq_nil.mp hab.symm with ⟨h1, -⟩
      exact (List.append_eq_nil.mp h1).2
  | c :: rest => by
    simp only [listContains, Bool.or_eq_true, isPrefixOf_eq_true_iff,
      listContains_eq_true_iff pat rest]
    constructor
    · rintro (⟨r, hr⟩ | ⟨a, b, rfl⟩)
      · exact ⟨[], r, by simp [hr]⟩
      · exact ⟨c :: a, b, rfl⟩
    · rintro ⟨a, b, hab⟩
      cases a with
      | nil => exact Or.inl ⟨b, by simpa using hab⟩
      | cons c' a' =>
        rw [List.cons_append, List.cons_append, List.cons.injEq] at hab
        exact Or.inr ⟨a', b, hab.2⟩

theorem map_eq_append_split (f : Char → Char) :
    ∀ (a cs r : List Char), cs.map f = a ++ r →
      ∃ a0 r0, cs = a0 ++ r0 ∧ a0.map f = a ∧ r0.map f = r
  | [], cs, _, h => ⟨[], cs, rfl, rfl, by simpa using h⟩
  | _ :: _, [], _, h => by simp at h
  | x :: a', c :: cs', r, h => by
    simp only [List.map_cons, List.cons_append, List.cons.injEq] at h
    obtain ⟨a0, r0, rfl, h1, h2⟩ := map_eq_append_split f a' cs' r h.2
    exact ⟨c :: a0, r0, rfl, by simp [h.1, h1], h2⟩

/-! ## Case-insensitive matching versus lowercase-then-match -/

theorem CIContains_iff_listContains (pat link : String)
    (hp : lowerChars pat.toList = pat.toList) :
    CIContains pat link ↔ listContains pat.toList (lowerChars link.toList) = true := by
  rw [listContains_eq_true_iff]
  constructor
  · rintro ⟨a, t, b, hcs, ht⟩
    refine ⟨lowerChars a, lowerChars b, ?_⟩
    have ht' : lowerChars t = pat.toList := by
      have : lowerChars t = lowerChars pat.toList := ht
      rw [this, hp]
    simp only [lowerChars, hcs, List.map_append] at *
    rw [ht']
  · rintro ⟨a, b, heq⟩
    rw [List.append_assoc] at heq
    obtain ⟨a0, r0, hsplit, -, hr0⟩ := map_eq_append_split Char.toLower a link.toList _ heq
    obtain ⟨t, b0, hsplit2, ht, -⟩ := map_eq_append_split Char.toLower pat.toList r0 b hr0
    refine ⟨a0, t, b0, by rw [hsplit, hsplit2, List.append_assoc], ?_⟩
    show lowerChars t = lowerChars pat.toList
    rw [hp]
    exact ht

theorem CIStartsWith_iff_isPrefixOf (pat link : String)
    (hp : lowerChars pat.toList = pat.toList) :
    CIStartsWith pat link ↔ pat.toList.isPrefixOf (lowerChars link.toList) = true := by
  rw [isPrefixOf_eq_true_iff]
  constructor
  · rintro ⟨t, r, hcs, ht⟩
    refine ⟨lowerChars r, ?_⟩
    have ht' : lowerChars t = pat.toList := by
      have : lowerChars t = lowerChars pat.toList := ht
      rw [this, hp]
    simp only [lowerChars, hcs, List.map_append] at *
    rw [ht']
  · rintro ⟨r, heq⟩
    obtain ⟨t, r0, hsplit, ht, -⟩ := map_eq_append_split Char.toLower pat.toList link.toList r heq
    refine ⟨t, r0, hsplit, ?_⟩
    show lowerChars t = lowerChars pat.toList
    rw [hp]
    exact ht

/-- C5: `quick_filter` returns `true` exactly when the link starts with the
protocol token `vless://` case-insensitively, contains the token
`security=reality` case-insensitively, and does not contain the token
`type=ws` case-insensitively.  Being a total Lean function, it never
raises; malformed input simply evaluates to `false`. -/
theorem quick_filter_characterization (link : String) :
    quick_filter link = true ↔
      CIStartsWith "vless://" link ∧ CIContains "security=reality" link ∧
        ¬ CIContains "type=ws" link := by
  rw [CIStartsWith_iff_isPrefixOf "vless://" link (by decide),
    CIContains_iff_listContains "security=reality" link (by decide),
    CIContains_iff_listContains "type=ws" link (by decide)]
  cases hA : "vless://".toList.isPrefixOf (lowerChars link.toList) <;>
    cases hB : listContains "security=reality".toList (lowerChars link.toList) <;>
      cases hC : listContains "type=ws".toList (lowerChars link.toList)
  all_goals simp only [quick_filter, hA, hB, hC, Bool.not_true, Bool.not_false]
  all_goals simp

/-! ## takeWhile / dropWhile facts used for the authority parse -/

theorem mem_takeWhile_sat {p : Char → Bool} :
    ∀ {l : List Char} {c : Char}, c ∈ l.takeWhile p → p c = true
  | [], c, h => by simp [List.takeWhile] at h
  | a :: l, c, h => by
    simp only [List.takeWhile] at h
    cases hp : p a with
    | true =>
      rw [hp] at h
      simp only [List.mem_cons] at h
      rcases h with rfl | h
      · exact hp
      · exact mem_takeWhile_sat h
    | false =>
      rw [hp] at h
      simp at h

theorem dropWhile_head_not {p : Char → Bool} :
    ∀ {l : List Char} {x : Char} {xs : List Char}, l.dropWhile p = x :: xs → p x = false
  | [], x, xs, h => by simp [List.dropWhile] at h
  | a :: l, x, xs, h => by
    simp only [List.dropWhile] at h
    cases hp : p a with
    | true =>
      rw [hp] at h
      exact dropWhile_head_not h
    | false =>
      rw [hp] at h
      injection h with h1 _
      rw [← h1]
      exact hp

theorem takeWhile_append_cons (p : Char → Bool) (x : Char) (hx : p x = false) :
    ∀ (u t : List Char), (∀ c ∈ u, p c = true) →
      (u ++ x :: t).takeWhile p = u ∧ (u ++ x :: t).dropWhile p = x :: t
  | [], t, _ => by simp [List.takeWhile, List.dropWhile, hx]
  | a :: u, t, hu => by
    have ha : p a = true := hu a (by simp)
    have ih := takeWhile_append_cons p x hx u t (fun c hc => hu c (by simp [hc]))
    simp only [List.cons_append, List.takeWhile, List.dropWhile, ha, List.append_eq]
    exact ⟨by rw [ih.1], ih.2⟩

theorem takeWhile_all_sat {p : Char → Bool} :
    ∀ (u : List Char), (∀ c ∈ u, p c = true) →
      u.takeWhile p = u ∧ u.dropWhile p = []
  | [], _ => by simp [List.takeWhile, List.dropWhile]
  | a :: u, hu => by
    have ha : p a = true := hu a (by simp)
    have ih := takeWhile_all_sat u (fun c hc => hu c (by simp [hc]))
    simp only [List.takeWhile, List.dropWhile, ha]
    exact ⟨by rw [ih.1], ih.2⟩

/-! ## C4: `extract_ip` -/

/-- C4 counterexample: the claim says a host is returned only when its four
octets are each in `[0,255]` and that out-of-range octets yield `None`; but
the code's pattern `^\d{1,3}(\.\d{1,3}){3}$` does no range validation, so
the host `999.0.0.1`, whose first octet exceeds 255, is returned. -/
theorem extract_ip_range_cex :
    extract_ip "vless://u@999.0.0.1:443?security=reality" = some "999.0.0.1" ∧
      isQuad255 "999.0.0.1".toList = false := by
  constructor
  · decide
  · decide

/-- Two further consequences of the regex semantics embedded in `isQuad13`,
matching the source exactly: Python's `$` accepts one trailing newline in
the host token, and `\d` accepts non-ASCII decimal digits such as
Arabic-Indic U+0661..U+0663. -/
theorem extract_ip_regex_semantics :
    extract_ip "vless://u@1.2.3.4\n?security=reality" = some "1.2.3.4\n" ∧
    extract_ip "vless://u@1.2.3.4\n\n?security=reality" = none ∧
    extract_ip (String.mk ("vless://u@".toList ++
        [Char.ofNat 1633, Char.ofNat 1634, Char.ofNat 1635, '.', Char.ofNat 1633, '.',
         Char.ofNat 1633, '.', Char.ofNat 1633] ++ ":443?security=reality".toList)) =
      some (String.mk [Char.ofNat 1633, Char.ofNat 1634, Char.ofNat 1635, '.',
        Char.ofNat 1633, '.', Char.ofNat 1633, '.', Char.ofNat 1633]) := by
  refine ⟨?_, ?_, ?_⟩ <;> decide

/-- C4 (amended): `extract_ip` returns `some h` exactly when the link
decomposes as `vless://<userinfo>@<host><rest>` with `h` the maximal
nonempty host token free of `[:/?#]` after the first `'@'`, and `h` is a
dotted quad of four groups of one to three Unicode decimal digits,
optionally followed by one final newline (Python's `$` matches before a
final `'\n'`), with no numeric range restriction.  In all other cases it
returns `none`; being a total Lean function, it never raises. -/
theorem extract_ip_eq_some_iff (link h : String) :
    extract_ip link = some h ↔ HostSpec link h ∧ isQuad13 h.toList = true := by
  constructor
  · intro hx
    simp only [extract_ip] at hx
    split at hx
    case isFalse => exact absurd hx (by simp)
    case isTrue hpre =>
      obtain ⟨rest, hrest⟩ := (isPrefixOf_eq_true_iff _ _).mp hpre
      have hdrop : link.toList.drop 8 = rest := by
        rw [hrest]
        rfl
      rw [hdrop] at hx
      split at hx
      case h_1 => exact absurd hx (by simp)
      case h_2 a afterAt heq =>
        have ha : a = '@' := by
          have := dropWhile_head_not heq
          simpa using this
        subst ha
        have hsplitrest : rest = rest.takeWhile (fun c => !(c == '@')) ++ '@' :: afterAt := by
          conv_lhs => rw [← @List.takeWhile_append_dropWhile Char (fun c => !(c == '@')) rest]
          rw [heq]
        split at hx
        case isTrue => exact absurd hx (by simp)
        case isFalse hune =>
          split at hx
          case isTrue => exact absurd hx (by simp)
          case isFalse hhne =>
            split at hx
            case isFalse => exact absurd hx (by simp)
            case isTrue hquad =>
              have hh : String.mk (afterAt.takeWhile (fun c => !(isDelim c))) = h :=
                Option.some.inj hx
              have hhl : h.toList = afterAt.takeWhile (fun c => !(isDelim c)) := by
                rw [← hh]
                rfl
              refine ⟨⟨rest.takeWhile (fun c => !(c == '@')), afterAt.dropWhile (fun c => !(isDelim c)), ?_, ?_, ?_, ?_, ?_, ?_⟩, ?_⟩
              · rw [hrest, hhl, List.takeWhile_append_dropWhile]
                exact congrArg (fun l => "vless://".toList ++ l) hsplitrest
              · intro hcon
                rw [hcon] at hune
                simp at hune
              · intro c hc
                have := mem_takeWhile_sat hc
                simpa using this
              · intro hcon
                rw [hhl] at hcon
                rw [hcon] at hhne
                simp at hhne
              · intro c hc
                rw [hhl] at hc
                have := mem_takeWhile_sat hc
                simpa using this
              · intro c hc
                cases hdw : afterAt.dropWhile (fun c => !(isDelim c)) with
                | nil => rw [hdw] at hc; simp at hc
                | cons x xs =>
                  rw [hdw] at hc
                  simp only [List.head?_cons, Option.mem_def, Option.some.injEq] at hc
                  subst hc
                  have := dropWhile_head_not hdw
                  simpa using this
              · rw [hhl]
                exact hquad
  · rintro ⟨⟨u, r, hlink, hune, hu, hhne, hhd, hr⟩, hquad⟩
    have hpre : "vless://".toList.isPrefixOf link.toList = true :=
      (isPrefixOf_eq_true_iff _ _).mpr ⟨_, hlink⟩
    have hdrop : link.toList.drop 8 = u ++ '@' :: (h.toList ++ r) := by
      rw [hlink]
      rfl
    have hpu : ∀ c ∈ u, (fun c => !(c == '@')) c = true := by
      intro c hc
      simpa using hu c hc
    have htw := takeWhile_append_cons (fun c => !(c == '@')) '@' rfl u (h.toList ++ r) hpu
    have hqh : ∀ c ∈ h.toList, (fun c => !(isDelim c)) c = true := by
      intro c hc
      simpa using hhd c hc
    have hhost : (h.toList ++ r).takeWhile (fun c => !(isDelim c)) = h.toList := by
      cases r with
      | nil => rw [List.append_nil]; exact (takeWhile_all_sat h.toList hqh).1
      | cons x xs =>
        have hx : (fun c => !(isDelim c)) x = false := by
          have : isDelim x = true := hr x (by simp)
          simp [this]
        exact (takeWhile_append_cons _ x hx h.toList xs hqh).1
    have hue : u.isEmpty = false := by
      cases u with
      | nil => exact absurd rfl hune
      | cons _ _ => rfl
    have hhe : h.toList.isEmpty = false := by
      cases hh : h.toList with
      | nil => exact absurd hh hhne
      | cons _ _ => rfl
    simp only [extract_ip, hpre, hdrop, htw.1, htw.2, hue, hhost, hhe, hquad,
      Bool.false_eq_true, if_false, if_true]
    rfl

/-! ## Pipeline lemmas -/

theorem stage1_perm : ∀ links : List String,
    List.Perm ((stage1 links).1 ++ (stage1 links).2) links
  | [] => by simp [stage1]
  | link :: rest => by
    have ih := stage1_perm rest
    rcases hs : stage1 rest with ⟨p, r⟩
    rw [hs] at ih
    cases hq : quick_filter link with
    | true =>
      simp only [stage1, hs, hq, if_true, List.cons_append]
      exact ih.cons link
    | false =>
      simp only [stage1, hs, hq, Bool.false_eq_true, if_false]
      exact List.perm_middle.trans (ih.cons link)

theorem stage2_perm {σ : Type} (mode : String) (classify : String → σ → Verdict × σ) :
    ∀ (links : List String) (s : σ),
      List.Perm ((stage2 mode classify links s).final_clean ++
        (stage2 mode classify links s).isp_problem) links
  | [], s => by simp [stage2]
  | link :: rest, s => by
    cases hip : extract_ip link with
    | none =>
      have ih := stage2_perm mode classify rest s
      simp only [stage2, hip]
      exact List.perm_middle.trans (ih.cons link)
    | some ip =>
      rcases hc : classify ip s with ⟨v, s1⟩
      have ih := stage2_perm mode classify rest s1
      by_cases hv : v = Verdict.clean
      · simp only [stage2, hip, hc, hv, if_true, List.cons_append]
        exact ih.cons link
      · simp only [stage2, hip, hc, if_neg hv]
        exact List.perm_middle.trans (ih.cons link)

theorem stage1_pass_sublist : ∀ links : List String, List.Sublist (stage1 links).1 links
  | [] => by simp [stage1]
  | link :: rest => by
    have ih := stage1_pass_sublist rest
    rcases hs : stage1 rest with ⟨p, r⟩
    rw [hs] at ih
    cases hq : quick_filter link with
    | true =>
      simp only [stage1, hs, hq, if_true]
      exact ih.cons₂ link
    | false =>
      simp only [stage1, hs, hq, Bool.false_eq_true, if_false]
      exact ih.cons link

theorem stage1_rej_sublist : ∀ links : List String, List.Sublist (stage1 links).2 links
  | [] => by simp [stage1]
  | link :: rest => by
    have ih := stage1_rej_sublist rest
    rcases hs : stage1 rest with ⟨p, r⟩
    rw [hs] at ih
    cases hq : quick_filter link with
    | true =>
      simp only [stage1, hs, hq, if_true]
      exact ih.cons link
    | false =>
      simp only [stage1, hs, hq, Bool.false_eq_true, if_false]
      exact ih.cons₂ link

theorem stage2_fc_sublist {σ : Type} (mode : String) (classify : String → σ → Verdict × σ) :
    ∀ (links : List String) (s : σ),
      List.Sublist (stage2 mode classify links s).final_clean links
  | [], s => by simp [stage2]
  | link :: rest, s => by
    cases hip : extract_ip link with
    | none =>
      simp only [stage2, hip]
      exact (stage2_fc_sublist mode classify rest s).cons link
    | some ip =>
      rcases hc : classify ip s with ⟨v, s1⟩
      by_cases hv : v = Verdict.clean
      · simp only [stage2, hip, hc, hv, if_true]
        exact (stage2_fc_sublist mode classify rest s1).cons₂ link
      · simp only [stage2, hip, hc, if_neg hv]
        exact (stage2_fc_sublist mode classify rest s1).cons link

theorem stage2_isp_sublist {σ : Type} (mode : String) (classify : String → σ → Verdict × σ) :
    ∀ (links : List String) (s : σ),
      List.Sublist (stage2 mode classify links s).isp_problem links
  | [], s => by simp [stage2]
  | link :: rest, s => by
    cases hip : extract_ip link with
    | none =>
      simp only [stage2, hip]
      exact (stage2_isp_sublist mode classify rest s).cons₂ link
    | some ip =>
      rcases hc : classify ip s with ⟨v, s1⟩
      by_cases hv : v = Verdict.clean
      · simp only [stage2, hip, hc, hv, if_true]
        exact (stage2_isp_sublist mode classify rest s1).cons link
      · simp only [stage2, hip, hc, if_neg hv]
        exact (stage2_isp_sublist mode classify rest s1).cons₂ link

theorem stage2_filter_trace {σ : Type} (mode : String) (classify : String → σ → Verdict × σ) :
    ∀ (links : List String) (s : σ),
      (stage2 mode classify links s).final_clean =
        ((stage2Trace classify links s).filter
          (fun p => decide (p.2 = some Verdict.clean))).map Prod.fst ∧
      (stage2 mode classify links s).isp_problem =
        ((stage2Trace classify links s).filter
          (fun p => !decide (p.2 = some Verdict.clean))).map Prod.fst
  | [], s => by simp [stage2, stage2Trace]
  | link :: rest, s => by
    cases hip : extract_ip link with
    | none =>
      have ih := stage2_filter_trace mode classify rest s
      simp only [stage2, stage2Trace, hip, List.filter_cons]
      constructor
      · simpa using ih.1
      · simpa using ih.2
    | some ip =>
      rcases hc : classify ip s with ⟨v, s1⟩
      have ih := stage2_filter_trace mode classify rest s1
      by_cases hv : v = Verdict.clean
      · simp only [stage2, stage2Trace, hip, hc, hv, if_true, List.filter_cons]
        constructor
        · simpa using ih.1
        · simpa using ih.2
      · simp only [stage2, stage2Trace, hip, hc, if_neg hv, List.filter_cons]
        constructor
        · simp only [decide_eq_true_eq]
          rw [if_neg (by simpa using hv)]
          exact ih.1
        · rw [if_pos (by simpa using hv)]
          simpa using ih.2

/-- C1: in every origin-check mode the pipeline partitions its input
completely: the three final buckets' lengths sum to the input length,
`stage1_pass` and `rejected` sum to the input length, and the concatenation
of the three final buckets is a permutation of the input — no link is
discarded or duplicated. -/
theorem partition_complete {σ : Type} (mode : String) (classify : String → σ → Verdict × σ)
    (download : σ → σ) (links : List String) (s : σ) :
    (main_pipeline mode classify download links s).parts.final_clean.length +
        (main_pipeline mode classify download links s).parts.isp_problem.length +
        (main_pipeline mode classify download links s).parts.rejected.length = links.length ∧
    (main_pipeline mode classify download links s).parts.stage1_pass.length +
        (main_pipeline mode classify download links s).parts.rejected.length = links.length ∧
    List.Perm ((main_pipeline mode classify download links s).parts.final_clean ++
      (main_pipeline mode classify download links s).parts.isp_problem ++
      (main_pipeline mode classify download links s).parts.rejected) links := by
  rcases hs : stage1 links with ⟨pass, rej⟩
  have hperm1 : List.Perm (pass ++ rej) links := by
    have := stage1_perm links
    rwa [hs] at this
  have l2 : pass.length + rej.length = links.length := by
    simpa using hperm1.length_eq
  cases hm : mode == "geo" with
  | true =>
    have hperm2 := stage2_perm mode classify pass (download s)
    have l1 : (stage2 mode classify pass (download s)).final_clean.length +
        (stage2 mode classify pass (download s)).isp_problem.length = pass.length := by
      simpa using hperm2.length_eq
    simp only [main_pipeline, hs, hm, if_true]
    refine ⟨by omega, by omega, ?_⟩
    exact (hperm2.append_right rej).trans hperm1
  | false =>
    simp only [main_pipeline, hs, hm, Bool.false_eq_true, if_false]
    refine ⟨by simp; omega, by omega, ?_⟩
    simpa using hperm1

/-- C2: under origin checking (`mode = "geo"`), `final_clean` consists of
exactly the stage-1 survivors whose recorded outcome in the annotated run
is the verdict `clean`, and `isp_problem` of exactly the others (outcome
missing-IP or a verdict other than `clean`); in particular every link whose
outcome is not `clean` lands in `isp_problem`, never in `final_clean`. -/
theorem fail_closed {σ : Type} (classify : String → σ → Verdict × σ) (download : σ → σ)
    (links : List String) (s : σ) :
    (main_pipeline "geo" classify download links s).parts.final_clean =
      ((stage2Trace classify (stage1 links).1 (download s)).filter
        (fun p => decide (p.2 = some Verdict.clean))).map Prod.fst ∧
    (main_pipeline "geo" classify download links s).parts.isp_problem =
      ((stage2Trace classify (stage1 links).1 (download s)).filter
        (fun p => !decide (p.2 = some Verdict.clean))).map Prod.fst ∧
    ∀ link v, (link, v) ∈ stage2Trace classify (stage1 links).1 (download s) →
      v ≠ some Verdict.clean →
      link ∈ (main_pipeline "geo" classify download links s).parts.isp_problem := by
  rcases hs : stage1 links with ⟨pass, rej⟩
  have hft := stage2_filter_trace "geo" classify pass (download s)
  simp only [main_pipeline, hs, beq_self_eq_true, if_true]
  refine ⟨hft.1, hft.2, ?_⟩
  intro link v hmem hne
  rw [hft.2]
  exact List.mem_map.mpr ⟨(link, v), List.mem_filter.mpr ⟨hmem, by simp [hne]⟩, rfl⟩

/-- Concrete instance of the fail-closed routing: a single stage-1-passing
link whose verdict is `bad` is placed in `isp_problem`. -/
theorem fail_closed_witness :
    "vless://u@1.2.3.4:443?security=reality" ∈
      (main_pipeline "geo" (fun _ (s : Unit) => (Verdict.bad, s)) id
        ["vless://u@1.2.3.4:443?security=reality"] ()).parts.isp_problem :=
  (fail_closed (fun _ (s : Unit) => (Verdict.bad, s)) id
      ["vless://u@1.2.3.4:443?security=reality"] ()).2.2
    "vless://u@1.2.3.4:443?security=reality" (some Verdict.bad) (by decide) (by decide)

/-- C7: each of the four output partitions is a subsequence of the input,
preserving the links' relative input order, in every origin-check mode. -/
theorem order_preservation {σ : Type} (mode : String) (classify : String → σ → Verdict × σ)
    (download : σ → σ) (links : List String) (s : σ) :
    List.Sublist (main_pipeline mode classify download links s).parts.stage1_pass links ∧
    List.Sublist (main_pipeline mode classify download links s).parts.final_clean links ∧
    List.Sublist (main_pipeline mode classify download links s).parts.isp_problem links ∧
    List.Sublist (main_pipeline mode classify download links s).parts.rejected links := by
  rcases hs : stage1 links with ⟨pass, rej⟩
  have h1 : List.Sublist pass links := by
    have := stage1_pass_sublist links
    rwa [hs] at this
  have h2 : List.Sublist rej links := by
    have := stage1_rej_sublist links
    rwa [hs] at this
  cases hm : mode == "geo" with
  | true =>
    simp only [main_pipeline, hs, hm, if_true]
    exact ⟨h1, (stage2_fc_sublist mode classify pass (download s)).trans h1,
      (stage2_isp_sublist mode classify pass (download s)).trans h1, h2⟩
  | false =>
    simp only [main_pipeline, hs, hm, Bool.false_eq_true, if_false]
    exact ⟨h1, h1, List.nil_sublist links, h2⟩

theorem stage2_geo_delays {σ : Type} (classify : String → σ → Verdict × σ) :
    ∀ (links : List String) (s : σ), (stage2 "geo" classify links s).delays = 0
  | [], _ => rfl
  | link :: rest, s => by
    cases hip : extract_ip link with
    | none =>
      simp only [stage2, hip]
      exact stage2_geo_delays classify rest s
    | some ip =>
      rcases hc : classify ip s with ⟨v, s1⟩
      have ih := stage2_geo_delays classify rest s1
      by_cases hv : v = Verdict.clean
      · simp only [stage2, hip, hc, hv, if_true, ih, sleepCount]
        rfl
      · simp only [stage2, hip, hc, if_neg hv, ih, sleepCount]
        rfl

/-- C3 (code bug): under `CHECK_IP_MODE = "api"` the pipeline does not
perform origin checking at all — it takes the `!= "geo"` branch that copies
`stage1_pass` into `final_clean`, leaves `isp_problem` empty, and never
consults the classifier (the run result is independent of `classify` and of
the classifier state) — and the `time.sleep` guarded by
`CHECK_IP_MODE == "api"` is unreachable: the number of inter-check delays
performed is 0 in every mode. -/
theorem api_mode_skips_origin_check {σ : Type} (classify : String → σ → Verdict × σ)
    (download : σ → σ) (links : List String) (s : σ) :
    main_pipeline "api" classify download links s =
      ⟨⟨(stage1 links).1, (stage1 links).1, [], (stage1 links).2⟩, s, 0⟩ ∧
    ∀ mode, (main_pipeline mode classify download links s).delays = 0 := by
  constructor
  · rcases hs : stage1 links with ⟨pass, rej⟩
    simp only [main_pipeline, hs]
    rw [if_neg (by decide)]
  · intro mode
    rcases hs : stage1 links with ⟨pass, rej⟩
    cases hm : mode == "geo" with
    | true =>
      have hmode : mode = "geo" := by simpa using hm
      subst hmode
      simp only [main_pipeline, hs, beq_self_eq_true, if_true]
      exact stage2_geo_delays classify pass (download s)
    | false =>
      simp only [main_pipeline, hs, hm, Bool.false_eq_true, if_false]

/-! ## C6: the per-run cache -/

theorem readDb_writes_cache (env : GeoEnv) (ip : String) (cache : Cache) :
    ((readDb env ip cache).2.1).lookup ip = some (readDb env ip cache).1 := by
  unfold readDb
  cases env.read ip with
  | found o a =>
    dsimp only
    split <;> simp [List.lookup]
  | notFound => simp [List.lookup]
  | fault => simp [List.lookup]

theorem readDb_reads_one (env : GeoEnv) (ip : String) (cache : Cache) :
    (readDb env ip cache).2.2 = 1 := by
  unfold readDb
  cases env.read ip with
  | found o a =>
    dsimp only
    split <;> rfl
  | notFound => rfl
  | fault => rfl

theorem check_ip_writes_cache (env : GeoEnv) (ip : String) (cache : Cache) :
    ((check_ip_with_geoasn env ip cache).2.1).lookup ip =
      some (check_ip_with_geoasn env ip cache).1 := by
  unfold check_ip_with_geoasn
  cases hl : cache.lookup ip with
  | some v => simpa using hl
  | none =>
    dsimp only
    split
    · exact readDb_writes_cache env ip cache
    · split
      · split
        · exact readDb_writes_cache env ip cache
        · simp [List.lookup]
      · simp [List.lookup]

theorem check_ip_reads_le_one (env : GeoEnv) (ip : String) (cache : Cache) :
    (check_ip_with_geoasn env ip cache).2.2 ≤ 1 := by
  unfold check_ip_with_geoasn
  cases hl : cache.lookup ip with
  | some v => simp
  | none =>
    dsimp only
    split
    · exact Nat.le_of_eq (readDb_reads_one env ip cache)
    · split
      · split
        · exact Nat.le_of_eq (readDb_reads_one env ip cache)
        · simp
      · simp

theorem check_ip_hit {ip : String} {cache : Cache} {v : Verdict} (env : GeoEnv)
    (h : cache.lookup ip = some v) :
    check_ip_with_geoasn env ip cache = (v, cache, 0) := by
  unfold check_ip_with_geoasn
  rw [h]

/-- C6: the address-to-verdict cache is write-once per address within a run:
calling the classifier twice in sequence for the same address — even against
a changed external environment (database present/absent, different reader
results) — returns the identical verdict, and the underlying database read
happens at most once in total for that address (and never on the second
call). -/
theorem classify_cache_write_once (env1 env2 : GeoEnv) (ip : String) (cache : Cache) :
    (check_ip_with_geoasn env2 ip (check_ip_with_geoasn env1 ip cache).2.1).1 =
      (check_ip_with_geoasn env1 ip cache).1 ∧
    (check_ip_with_geoasn env2 ip (check_ip_with_geoasn env1 ip cache).2.1).2.2 = 0 ∧
    (check_ip_with_geoasn env1 ip cache).2.2 +
      (check_ip_with_geoasn env2 ip (check_ip_with_geoasn env1 ip cache).2.1).2.2 ≤ 1 := by
  have h2 := check_ip_hit env2 (check_ip_writes_cache env1 ip cache)
  rw [h2]
  refine ⟨rfl, rfl, ?_⟩
  simpa using check_ip_reads_le_one env1 ip cache

/-! ## C8, C9: the reference-database lifecycle -/

theorem should_download_geoip_eq (db : DbFile) :
    should_download_geoip db = (!db.present || decide (db.size < MIN_DB_SIZE)) := by
  unfold should_download_geoip
  cases hp : db.present <;> by_cases hsz : db.size < MIN_DB_SIZE <;>
    by_cases hage : MAX_AGE_DAYS * 86400 < db.ageSeconds <;>
      simp [hp, hsz, hage]

/-- C8: `should_download_geoip` returns `true` exactly when the database
file is absent or smaller than `MIN_DB_SIZE`; consequently a present,
valid-size file that is older than the age threshold yields `false`
(stale-but-usable, advisory only) — age never triggers a download. -/
theorem should_download_iff (db : DbFile) :
    should_download_geoip db = (!db.present || decide (db.size < MIN_DB_SIZE)) :=
  should_download_geoip_eq db

/-- C9: `download_geoip_database` is a no-op success when no acquisition is
needed; on a transport fault or an undersized download the written file is
deleted and the call returns `false` (the model is a total function, so no
exception escapes); and whenever it returns `true` the resulting file is
present with size at least `MIN_DB_SIZE`. -/
theorem download_geoip_database_spec (db : DbFile) (t : Transport) :
    (should_download_geoip db = false → download_geoip_database db t = (true, db)) ∧
    (should_download_geoip db = true → t = Transport.fault →
      download_geoip_database db t = (false, deletedDb)) ∧
    (∀ n, should_download_geoip db = true → t = Transport.wrote n → n < MIN_DB_SIZE →
      download_geoip_database db t = (false, deletedDb)) ∧
    ((download_geoip_database db t).1 = true →
      (download_geoip_database db t).2.present = true ∧
        MIN_DB_SIZE ≤ (download_geoip_database db t).2.size) := by
  refine ⟨?_, ?_, ?_, ?_⟩
  · intro h
    simp [download_geoip_database, h]
  · rintro h rfl
    simp [download_geoip_database, h]
  · rintro n h rfl hn
    simp [download_geoip_database, h, Nat.not_le.mpr hn]
  · intro h
    cases hsd : should_download_geoip db with
    | false =>
      have hdb := should_download_geoip_eq db
      rw [hsd] at hdb
      have hp : db.present = true := by
        cases hpres : db.present <;> simp [hpres] at hdb ⊢
      have hsz : MIN_DB_SIZE ≤ db.size := by
        rcases Bool.or_eq_false_iff.mp hdb.symm with ⟨-, h2⟩
        simpa using Nat.le_of_not_lt (by simpa using h2)
      simp [download_geoip_database, hsd, hp, hsz]
    | true =>
      cases t with
      | fault =>
        simp [download_geoip_database, hsd] at h
      | wrote n =>
        by_cases hn : MIN_DB_SIZE ≤ n
        · simp [download_geoip_database, hsd, hn]
        · simp [download_geoip_database, hsd, hn] at h

/-- Concrete instances of the four clauses of C9's theorem: a fresh valid
file is left untouched, an absent file plus a transport fault yields
failure with nothing on disk, a corrupt file plus an undersized download
yields failure with the artifact deleted, and a corrupt file plus a
successful download of `MIN_DB_SIZE` bytes ends with a valid file. -/
theorem download_geoip_database_spec_witness :
    download_geoip_database ⟨true, 2000000, 0⟩ Transport.fault = (true, ⟨true, 2000000, 0⟩) ∧
    download_geoip_database ⟨false, 0, 0⟩ Transport.fault = (false, deletedDb) ∧
    download_geoip_database ⟨true, 100, 0⟩ (Transport.wrote 400) = (false, deletedDb) ∧
    ((download_geoip_database ⟨true, 100, 0⟩ (Transport.wrote 1500000)).2.present = true ∧
      MIN_DB_SIZE ≤ (download_geoip_database ⟨true, 100, 0⟩ (Transport.wrote 1500000)).2.size) := by
  refine ⟨?_, ?_, ?_, ?_⟩
  · exact (download_geoip_database_spec ⟨true, 2000000, 0⟩ Transport.fault).1 (by decide)
  · exact (download_geoip_database_spec ⟨false, 0, 0⟩ Transport.fault).2.1 (by decide) rfl
  · exact (download_geoip_database_spec ⟨true, 100, 0⟩ (Transport.wrote 400)).2.2.1
      400 (by decide) rfl (by decide)
  · exact (download_geoip_database_spec ⟨true, 100, 0⟩ (Transport.wrote 1500000)).2.2.2
      (by decide)

/-! ## C10: mixed-case scheme prefix -/

/-- C10: a link whose first eight characters lowercase to `vless://` but are
not exactly `vless://`, and which contains `security=reality` and not
`type=ws` after lowercasing, passes `quick_filter` (which lowercases) while
`extract_ip` returns `none` (its regex is case sensitive); hence under
origin checking the stage-2 loop routes it straight to `isp_problem` without
consulting the classifier: the step neither touches the classifier state nor
adds a delay, for every classifier. -/
theorem uppercase_scheme_routes_to_isp (link : String)
    (h1 : lowerChars (link.toList.take 8) = "vless://".toList)
    (h2 : link.toList.take 8 ≠ "vless://".toList)
    (h3 : listContains "security=reality".toList (lowerChars link.toList) = true)
    (h4 : listContains "type=ws".toList (lowerChars link.toList) = false) :
    quick_filter link = true ∧ extract_ip link = none ∧
    ∀ (σ : Type) (classify : String → σ → Verdict × σ) (rest : List String) (s : σ),
      stage2 "geo" classify (link :: rest) s =
        ⟨(stage2 "geo" classify rest s).final_clean,
         link :: (stage2 "geo" classify rest s).isp_problem,
         (stage2 "geo" classify rest s).state,
         (stage2 "geo" classify rest s).delays⟩ := by
  have hpre : "vless://".toList.isPrefixOf (lowerChars link.toList) = true := by
    apply (isPrefixOf_eq_true_iff _ _).mpr
    refine ⟨lowerChars (link.toList.drop 8), ?_⟩
    rw [← h1]
    simp only [lowerChars]
    rw [← List.map_append, List.take_append_drop]
  have hqf : quick_filter link = true := by
    simp only [quick_filter, hpre, h3, h4, Bool.not_true, Bool.false_eq_true, if_false]
  have hnpre : "vless://".toList.isPrefixOf link.toList = false := by
    cases hp : "vless://".toList.isPrefixOf link.toList with
    | false => rfl
    | true =>
      exfalso
      obtain ⟨r, hr⟩ := (isPrefixOf_eq_true_iff _ _).mp hp
      apply h2
      rw [hr]
      rfl
  have hext : extract_ip link = none := by
    simp only [extract_ip, hnpre, Bool.false_eq_true, if_false]
  refine ⟨hqf, hext, ?_⟩
  intro σ classify rest s
  simp only [stage2, hext]

/-- Concrete instance of C10 at the mixed-case link
`VLESS://u@1.2.3.4:443?security=reality`. -/
theorem uppercase_scheme_routes_to_isp_witness :
    quick_filter "VLESS://u@1.2.3.4:443?security=reality" = true ∧
    extract_ip "VLESS://u@1.2.3.4:443?security=reality" = none ∧
    stage2 "geo" (fun _ (s : Unit) => (Verdict.clean, s))
        ["VLESS://u@1.2.3.4:443?security=reality"] () =
      ⟨[], ["VLESS://u@1.2.3.4:443?security=reality"], (), 0⟩ := by
  have h := uppercase_scheme_routes_to_isp "VLESS://u@1.2.3.4:443?security=reality"
    (by decide) (by decide) (by decide) (by decide)
  refine ⟨h.1, h.2.1, ?_⟩
  rw [h.2.2 Unit (fun _ s => (Verdict.clean, s)) [] ()]
  rfl

end AppModel
